import Mathlib

/-!
Shallow embedding of the `wile` certificate-management package (Go) and
proofs about its specification.

Modelling conventions:
* Go byte slices are `List ℕ`; Go strings are Lean `String` (all keys in
  this code base are ASCII, so Go's byte-wise operations and Lean's
  character-wise operations agree on them).
* Go maps are association lists `List (String × α)`; a *nil* map (as
  distinct from an empty one) is modelled by `Option` where it matters.
* The etcd store is a pure map `String → Option (List ℕ)`; an etcd range
  read returns the list of matching values (empty when the key is absent),
  exactly as `clientv3.Get` populates `resp.Kvs`.
* Cryptographic primitives (HKDF, HMAC-SHA256, base32, AES-GCM) are
  external library capabilities, taken as explicit function parameters;
  theorems that depend on their algebraic properties take those
  properties as hypotheses.
-/

/-- Go map lookup on an association-list model (`m[k]`). -/
def assocGet {α : Type} (m : List (String × α)) (k : String) : Option α :=
  (m.find? (fun p => p.1 = k)).map Prod.snd

/-- Go map insertion `m[k] = v`: any old binding for `k` is replaced. -/
def assocSet {α : Type} (m : List (String × α)) (k : String) (v : α) : List (String × α) :=
  m.filter (fun p => p.1 ≠ k) ++ [(k, v)]

/-- The clone loop of `Client.mutateCerts`: `for k, v := range old { new[k] = v }`
starting from a fresh empty map. -/
def assocClone {α : Type} (m : List (String × α)) : List (String × α) :=
  m.foldl (fun acc p => assocSet acc p.1 p.2) []

/-- Go `path.Join`: joins the non-empty components with "/". (The full
`path.Clean` step is omitted; every call site in this code base passes a
clean absolute first component and slash-free non-dot components, on which
`Clean` is the identity.) -/
def goPathJoin (elems : List String) : String :=
  String.intercalate "/" (elems.filter (fun s => s ≠ ""))

/-- Go `[]byte(s)` for the ASCII strings used as keys in this code base. -/
def strBytes (s : String) : List ℕ :=
  s.toList.map Char.toNat

/-- Go `strings.HasPrefix(s, pre)` (character-wise; ASCII inputs here). -/
def strHasPrefix (s pre : String) : Bool :=
  pre.toList.isPrefixOf s.toList

/-- Go string slicing `s[n:]` (character-wise; ASCII inputs here). -/
def strDrop (s : String) (n : ℕ) : String :=
  ⟨s.toList.drop n⟩

instance {ε α : Type} [DecidableEq ε] [DecidableEq α] : DecidableEq (Except ε α) :=
  fun a b =>
    match a, b with
    | .error e, .error e' =>
      if h : e = e' then .isTrue (by rw [h]) else .isFalse (by simp [h])
    | .error _, .ok _ => .isFalse (by simp)
    | .ok _, .error _ => .isFalse (by simp)
    | .ok v, .ok v' =>
      if h : v = v' then .isTrue (by rw [h]) else .isFalse (by simp [h])

/-! ## Challenge coordination (`etcdProvider`, `Client.ServeHTTP`) -/

/-- The namespace for challenge entries; constant `etcdPrefix` in the source. -/
def challengeNs : String := "/wile/acme/http"

/-- Source function `etcdKey(domain, token)`: `path.Join(etcdPrefix, domain, token)`. -/
def etcdKey (domain token : String) : String :=
  goPathJoin [challengeNs, domain, token]

/-- State of the etcd store: logical key to stored value. -/
def EtcdState : Type := String → Option (List ℕ)

/-- An etcd single-key range read: the list `resp.Kvs` of matching values. -/
def etcdRangeGet (st : EtcdState) (k : String) : List (List ℕ) :=
  match st k with
  | some v => [v]
  | none => []

/-- Source `etcdProvider.Present`: writes `keyAuth` at `etcdKey(domain, token)`. -/
def Present (st : EtcdState) (domain token : String) (keyAuth : List ℕ) : EtcdState :=
  fun k => if k = etcdKey domain token then some keyAuth else st k

/-- Source `etcdProvider.CleanUp`: deletes the entry at `etcdKey(domain, token)`. -/
def CleanUp (st : EtcdState) (domain token : String) : EtcdState :=
  fun k => if k = etcdKey domain token then none else st k

/-- Outcome of one `Client.ServeHTTP` call. `indexPanic` models the Go
runtime panic raised by indexing `resp.Kvs[0]` on an empty slice. -/
inductive HTTPResponse where
  | notFound
  | body (value : List ℕ)
  | indexPanic
deriving DecidableEq, Repr

structure HTTPRequest where
  method : String
  path : String
  host : String

/-- The well-known ACME HTTP-01 path; constant `acmePrefix` in `ServeHTTP`. -/
def acmeChallengePath : String := "/.well-known/acme-challenge/"

/-- Source `Client.ServeHTTP`, over an abstract etcd read
`etcdGet : String → Except Unit (List (List ℕ))` returning either a
transport error or the `Kvs` value list. Mirrors the source exactly:
a non-GET or non-prefixed request gets `http.NotFound`; a failed store
read gets `http.NotFound`; otherwise the handler writes `resp.Kvs[0].Value`
without checking that `Kvs` is non-empty. -/
def ServeHTTP (etcdGet : String → Except Unit (List (List ℕ))) (req : HTTPRequest) :
    HTTPResponse :=
  if req.method = "GET" ∧ strHasPrefix req.path acmeChallengePath then
    match etcdGet (etcdKey req.host (strDrop req.path acmeChallengePath.length)) with
    | .error _ => .notFound
    | .ok kvs =>
      match kvs with
      | [] => .indexPanic
      | v :: _ => .body v
  else
    .notFound

/-! ## `EtcdCache` (autocert cache backed by etcd) -/

/-- Error taxonomy of the cache layers. `cacheMiss` is `autocert.ErrCacheMiss`;
`tooSmall` is the "found too-small value" error of `EncryptingCache.Get`;
`authFailed` is an AEAD `Open` failure. -/
inductive CacheError where
  | cacheMiss
  | tooSmall (key : String)
  | authFailed
deriving DecidableEq, Repr

/-- Source `EtcdCache.etcdKey`: `path.Join(e.etcdPrefix, key)`. -/
def etcdCacheKey (ns key : String) : String :=
  goPathJoin [ns, key]

/-- Source `EtcdCache.Get`. Note: the source reads `e.etcd.Get(ctx, key)`
using the raw `key`, not `e.etcdKey(key)`. -/
def EtcdCacheGet (st : EtcdState) (ns key : String) : Except CacheError (List ℕ) :=
  match etcdRangeGet st key with
  | [] => .error .cacheMiss
  | v :: _ => .ok v

/-- Source `EtcdCache.Put`: writes at `e.etcdKey(key)`. -/
def EtcdCachePut (st : EtcdState) (ns key : String) (d : List ℕ) : EtcdState :=
  fun k => if k = etcdCacheKey ns key then some d else st k

/-- Source `EtcdCache.Delete`: deletes at `e.etcdKey(key)`. -/
def EtcdCacheDelete (st : EtcdState) (ns key : String) : EtcdState :=
  fun k => if k = etcdCacheKey ns key then none else st k

/-- C1: the spec claims `ServeChallenge` answers not-found when the store
holds no entry under the challenge key (in particular after `CleanUp`).
The code instead indexes `resp.Kvs[0]` without an emptiness check, so a
successful read of an absent key panics. This theorem evaluates the
embedded handler at the failing input: `Present` then `CleanUp` for
(`"example.com"`, `"tok"`), then a GET for that token, yielding the
index-out-of-range panic rather than a not-found response. -/
theorem C1_serveHTTP_missing_entry_panics :
    ServeHTTP
      (fun k => .ok (etcdRangeGet
        (CleanUp (Present (fun _ => none) "example.com" "tok" [1, 2]) "example.com" "tok") k))
      { method := "GET", path := "/.well-known/acme-challenge/tok", host := "example.com" }
      = .indexPanic ∧
    ServeHTTP
      (fun k => .ok (etcdRangeGet
        (CleanUp (Present (fun _ => none) "example.com" "tok" [1, 2]) "example.com" "tok") k))
      { method := "GET", path := "/.well-known/acme-challenge/tok", host := "example.com" }
      ≠ .notFound := by
  constructor <;> decide

/-- C2: the spec claims `EtcdCache.Get`, `Put` and `Delete` all address the
prefixed backend key, so `Put(k, v); Get(k)` returns `v`. In the source,
`Get` reads the raw key while `Put` writes the prefixed key, so with the
production prefix `"/wile/acme/http"` a `Put` of `[1]` under `"k"` is
followed by a `Get` of `"k"` that misses; the written value sits under
`"/wile/acme/http/k"` instead. -/
theorem C2_etcdCache_get_unprefixed :
    EtcdCacheGet (EtcdCachePut (fun _ => none) "/wile/acme/http" "k" [1])
      "/wile/acme/http" "k" = .error .cacheMiss ∧
    EtcdCacheGet (EtcdCachePut (fun _ => none) "/wile/acme/http" "k" [1])
      "/wile/acme/http" "/wile/acme/http/k" = .ok [1] := by
  constructor <;> decide

/-! ## `EncryptingCache` (envelope encryption over an autocert cache) -/

/-- An AEAD capability as used through Go's `cipher.AEAD` interface:
`Seal nonce plaintext additionalData` and `Open nonce ciphertext
additionalData` (the `dst` argument is always `nil` in this code base). -/
structure AEAD where
  NonceSize : ℕ
  Seal : List ℕ → List ℕ → List ℕ → List ℕ
  Open : List ℕ → List ℕ → List ℕ → Option (List ℕ)

/-- External hash primitives used by `EncryptingCache.hashKey`:
`hmacSha256 key message` and base32-hex encoding. -/
structure CryptoPrims where
  hmacSha256 : List ℕ → List ℕ → List ℕ
  base32HexEncode : List ℕ → String

/-- The `EncryptingCache` value after construction: hash sub-key `kh`
and the AEAD built from the cipher sub-key. -/
structure EncryptingCache where
  kh : List ℕ
  aead : AEAD

/-- Source `EncryptingCache.hashKey`: base32-hex of `HMAC-SHA256(kh, key)`. -/
def hashKey (p : CryptoPrims) (e : EncryptingCache) (key : String) : String :=
  p.base32HexEncode (p.hmacSha256 e.kh (strBytes key))

/-- Source `EncryptingCache.Get` over a pure backend `store` (the backend's
`Get` yields `ErrCacheMiss` exactly on an absent key, as `EtcdCache.Get`
does): fetch at the hashed key — a backend error is returned unchanged —
then reject values shorter than the nonce, then `Open` the remainder with
the plaintext key as associated data. -/
def EncryptingCacheGet (p : CryptoPrims) (e : EncryptingCache)
    (store : String → Option (List ℕ)) (key : String) : Except CacheError (List ℕ) :=
  match store (hashKey p e key) with
  | none => .error .cacheMiss
  | some val =>
    if val.length < e.aead.NonceSize then .error (.tooSmall key)
    else
      match e.aead.Open (val.take e.aead.NonceSize) (val.drop e.aead.NonceSize)
          (strBytes key) with
      | none => .error .authFailed
      | some pt => .ok pt

/-- Source `EncryptingCache.Put` over a pure backend: store
`nonce ++ Seal(nonce, data, key)` at the hashed key. The random nonce is
passed in explicitly (the source draws it from `rand.Reader`). -/
def EncryptingCachePut (p : CryptoPrims) (e : EncryptingCache)
    (store : String → Option (List ℕ)) (nonce : List ℕ) (key : String) (d : List ℕ) :
    String → Option (List ℕ) :=
  fun k =>
    if k = hashKey p e key then some (nonce ++ e.aead.Seal nonce d (strBytes key))
    else store k

/-- Source `EncryptingCache.Delete`: delete at the hashed key. -/
def EncryptingCacheDelete (p : CryptoPrims) (e : EncryptingCache)
    (store : String → Option (List ℕ)) (key : String) : String → Option (List ℕ) :=
  fun k => if k = hashKey p e key then none else store k

/-- C3: envelope-cache round-trip. For every crypto instantiation, backend
state, key and payload: if the drawn nonce has the AEAD's nonce length and
the AEAD round-trips (`Open` after `Seal` with the same nonce and
associated data returns the plaintext — true of AES-GCM), then `Get(k)`
right after `Put(k, d)` returns exactly `d`. The backend here is a pure
map, i.e. it faithfully returns at `hashKey(k)` the bytes stored there. -/
theorem C3_encryptingCache_roundtrip (p : CryptoPrims) (e : EncryptingCache)
    (store : String → Option (List ℕ)) (nonce : List ℕ) (key : String) (d : List ℕ)
    (hn : nonce.length = e.aead.NonceSize)
    (hopen : e.aead.Open nonce (e.aead.Seal nonce d (strBytes key)) (strBytes key) = some d) :
    EncryptingCacheGet p e (EncryptingCachePut p e store nonce key d) key = .ok d := by
  have hlen : ¬ (nonce ++ e.aead.Seal nonce d (strBytes key)).length < e.aead.NonceSize := by
    rw [List.length_append, ← hn]
    omega
  simp [EncryptingCacheGet, EncryptingCachePut, hlen, List.take_left' hn,
    List.drop_left' hn, hopen]
  rw [← hn]
  omega

/-- A mock AEAD for concrete witnesses: nonce length 2, `Seal` appends the
tag byte 7, `Open` checks and strips it. -/
def mockAEAD : AEAD where
  NonceSize := 2
  Seal := fun _ d _ => d ++ [7]
  Open := fun _ c _ => if c.getLast? = some 7 then some c.dropLast else none

/-- Mock hash primitives for concrete witnesses. -/
def mockPrims : CryptoPrims where
  hmacSha256 := fun k m => k ++ m
  base32HexEncode := fun bytes => String.intercalate "," (bytes.map (fun b => toString b))

/-- A concrete `EncryptingCache` built over the mocks. -/
def mockECache : EncryptingCache where
  kh := [3, 1]
  aead := mockAEAD

/-- Witness for C3 at a concrete input. -/
theorem C3_encryptingCache_roundtrip_witness :
    EncryptingCacheGet mockPrims mockECache
      (EncryptingCachePut mockPrims mockECache (fun _ => none) [0, 0] "k" [5, 6]) "k"
      = .ok [5, 6] :=
  C3_encryptingCache_roundtrip mockPrims mockECache (fun _ => none) [0, 0] "k" [5, 6]
    (by decide) (by decide)

/-- C4: decryption failures are distinct from a cache miss. Whenever the
backend returns bytes `val` for the hashed key: if `val` is shorter than
the nonce length, `Get` returns the too-small error; if the AEAD tag check
over the split nonce/ciphertext with the plaintext key as associated data
fails (as it does, by AES-GCM authenticity, when any bit of a stored
`nonce ++ ciphertext` was flipped), `Get` returns the
authentication-failure error. In both cases the result differs from the
backend's `cacheMiss` condition and is never a plaintext value. -/
theorem C4_get_errors_distinct_from_miss (p : CryptoPrims) (e : EncryptingCache)
    (store : String → Option (List ℕ)) (key : String) (val : List ℕ)
    (hval : store (hashKey p e key) = some val) :
    (val.length < e.aead.NonceSize →
      EncryptingCacheGet p e store key = .error (.tooSmall key) ∧
      EncryptingCacheGet p e store key ≠ .error .cacheMiss ∧
      ∀ v, EncryptingCacheGet p e store key ≠ .ok v) ∧
    (¬ val.length < e.aead.NonceSize →
      e.aead.Open (val.take e.aead.NonceSize) (val.drop e.aead.NonceSize)
          (strBytes key) = none →
      EncryptingCacheGet p e store key = .error .authFailed ∧
      EncryptingCacheGet p e store key ≠ .error .cacheMiss ∧
      ∀ v, EncryptingCacheGet p e store key ≠ .ok v) := by
  constructor
  · intro hshort
    have hg : EncryptingCacheGet p e store key = .error (.tooSmall key) := by
      simp [EncryptingCacheGet, hval, hshort]
    refine ⟨hg, ?_, ?_⟩
    · rw [hg]
      simp
    · intro v
      rw [hg]
      simp
  · intro hlong hfail
    have hg : EncryptingCacheGet p e store key = .error .authFailed := by
      simp [EncryptingCacheGet, hval, hlong, hfail]
    refine ⟨hg, ?_, ?_⟩
    · rw [hg]
      simp
    · intro v
      rw [hg]
      simp

/-- A backend state holding a too-short entry for key "k" under the mock cache. -/
def shortStore : String → Option (List ℕ) :=
  fun k => if k = hashKey mockPrims mockECache "k" then some [9] else none

/-- A backend state holding a tampered entry for key "k" under the mock cache
(the mock tag byte 7 was corrupted to 8). -/
def tamperedStore : String → Option (List ℕ) :=
  fun k => if k = hashKey mockPrims mockECache "k" then some [0, 0, 5, 8] else none

/-- Witness for C4 at concrete inputs: a one-byte entry yields the too-small
error and a tampered entry yields the authentication failure. -/
theorem C4_get_errors_distinct_from_miss_witness :
    EncryptingCacheGet mockPrims mockECache shortStore "k" = .error (.tooSmall "k") ∧
    EncryptingCacheGet mockPrims mockECache tamperedStore "k" = .error .authFailed :=
  ⟨((C4_get_errors_distinct_from_miss mockPrims mockECache shortStore "k" [9]
      (by decide)).1 (by decide)).1,
   ((C4_get_errors_distinct_from_miss mockPrims mockECache tamperedStore "k" [0, 0, 5, 8]
      (by decide)).2 (by decide) (by decide)).1⟩

/-! ## `NewEncryptingCache` key derivation -/

/-- Go `io.ReadFull` from a deterministic byte stream at an offset: returns
the `n` bytes starting at `off` and the advanced offset. -/
def readFull (stream : ℕ → ℕ) (off n : ℕ) : List ℕ × ℕ :=
  ((List.range n).map (fun i => stream (off + i)), off + n)

/-- The single HKDF context label used by `NewEncryptingCache`. -/
def autocertKeysInfo : String := "autocert keys"

/-- Source `NewEncryptingCache`, key-derivation part. `hkdfStream secret
info` is the HKDF-SHA256 output stream for master secret `secret`, nil
salt and context label `info` (an external capability). The source builds
one reader with the single label `"autocert keys"` and reads 16 bytes for
the hash key `kh`, then the next 16 bytes for the AES key `kaes`. -/
def NewEncryptingCacheKeys (hkdfStream : List ℕ → String → ℕ → ℕ) (key : List ℕ) :
    List ℕ × List ℕ :=
  let keyReader := hkdfStream key autocertKeysInfo
  let kh := readFull keyReader 0 16
  let kaes := readFull keyReader kh.2 16
  (kh.1, kaes.1)

/-- Modelled from the spec: sub-key derivation "with distinct, fixed context
labels — one label for the hash sub-key derivation and a different label
for the cipher sub-key derivation". Each sub-key is a fresh KDF invocation
with its own label, read from the start of that label's output stream. -/
def specDerivedKeys (hkdfStream : List ℕ → String → ℕ → ℕ) (key : List ℕ)
    (l1 l2 : String) : List ℕ × List ℕ :=
  ((readFull (hkdfStream key l1) 0 16).1, (readFull (hkdfStream key l2) 0 16).1)

/-- C5 counterexample: no pair of distinct labels makes the source's
derivation agree with the two-label derivation the spec describes, because
the source reads the cipher sub-key at offsets 16..31 of the *same*
stream rather than from the start of a second stream. Instantiating the
KDF with the stream that returns its byte index (and the empty master
secret) separates the two. -/
theorem C5_distinct_labels_refuted :
    ¬ ∃ l1 l2 : String, l1 ≠ l2 ∧
      ∀ (hkdfStream : List ℕ → String → ℕ → ℕ) (key : List ℕ),
        NewEncryptingCacheKeys hkdfStream key = specDerivedKeys hkdfStream key l1 l2 := by
  rintro ⟨l1, l2, hne, hall⟩
  have h := congrArg Prod.snd (hall (fun _ _ i => i) [])
  simp only [NewEncryptingCacheKeys, specDerivedKeys, readFull] at h
  exact absurd h (by decide)

/-- C5 as amended: `NewEncryptingCache` derives both sub-keys from a single
KDF invocation with the single fixed context label `"autocert keys"` — the
keyed-hash sub-key is bytes 0..15 and the cipher sub-key is bytes 16..31
of that one output stream. -/
theorem C5_single_label_consecutive_subkeys
    (hkdfStream : List ℕ → String → ℕ → ℕ) (key : List ℕ) :
    NewEncryptingCacheKeys hkdfStream key
      = ((List.range 16).map (hkdfStream key autocertKeysInfo),
         (List.range 16).map (fun i => hkdfStream key autocertKeysInfo (16 + i))) := by
  simp [NewEncryptingCacheKeys, readFull]

/-! ## Certificate lifecycle engine (`wile.go`) -/

/-- A parsed X.509 leaf; only the field the decision loop reads. Times are
Unix nanoseconds, as in Go's `time` package. -/
structure Leaf where
  notAfter : Int
deriving DecidableEq, Repr

/-- Go `tls.Certificate` after `setLeaf`: DER chain, key bytes, parsed leaf. -/
structure TLSCert where
  certificate : List (List ℕ)
  privateKey : List ℕ
  leaf : Leaf
deriving DecidableEq, Repr

/-- Source type `certMap`: the live certificate table. -/
abbrev certMap : Type := List (String × TLSCert)

/-- Source `Client.mutateCerts`: clone the current snapshot, apply the
mutation to the clone, publish the clone. -/
def mutateCerts (mutate : certMap → certMap) (old : certMap) : certMap :=
  mutate (assocClone old)

/-- The mutation passed to `mutateCerts` by `acceptNewCertResource`:
`certs[domain] = &cert`. -/
def installCertMutation (domain : String) (cert : TLSCert) : certMap → certMap :=
  fun certs => assocSet certs domain cert

theorem assocGet_cons {α : Type} (p : String × α) (ps : List (String × α)) (k : String) :
    assocGet (p :: ps) k = if p.1 = k then some p.2 else assocGet ps k := by
  by_cases hp : p.1 = k <;> simp [assocGet, List.find?_cons, hp]

theorem assocSet_cons {α : Type} (p : String × α) (ps : List (String × α)) (k : String)
    (v : α) :
    assocSet (p :: ps) k v = if p.1 = k then assocSet ps k v else p :: assocSet ps k v := by
  by_cases hp : p.1 = k <;> simp [assocSet, List.filter_cons, hp]

theorem assocGet_assocSet {α : Type} (m : List (String × α)) (k k' : String) (v : α) :
    assocGet (assocSet m k v) k' = if k' = k then some v else assocGet m k' := by
  induction m with
  | nil =>
    by_cases h : k' = k
    · simp [assocGet, assocSet, List.find?, h]
    · simp [assocGet, assocSet, List.find?, h, Ne.symm h]
  | cons p ps ih =>
    rw [assocSet_cons]
    by_cases hpk : p.1 = k
    · rw [if_pos hpk, ih, assocGet_cons]
      by_cases hk' : k' = k
      · rw [if_pos hk', if_pos hk']
      · have hp' : ¬ p.1 = k' := fun he => hk' ((he.symm).trans hpk)
        rw [if_neg hk', if_neg hk', if_neg hp']
    · rw [if_neg hpk, assocGet_cons, assocGet_cons]
      by_cases hpk' : p.1 = k'
      · have hk'k : ¬ k' = k := fun he => hpk ((hpk'.trans he))
        rw [if_pos hpk', if_neg hk'k, if_pos hpk']
      · rw [if_neg hpk', if_neg hpk', ih]

theorem assocGet_eq_none_of_not_mem {α : Type} (m : List (String × α)) (k : String)
    (h : k ∉ m.map Prod.fst) : assocGet m k = none := by
  unfold assocGet
  rw [Option.map_eq_none', List.find?_eq_none]
  intro x hx
  simp only [decide_eq_true_eq]
  intro he
  exact h (List.mem_map.mpr ⟨x, hx, he⟩)

theorem assocGet_append_single {α : Type} (xs : List (String × α)) (x : String × α)
    (k : String) :
    assocGet (xs ++ [x]) k =
      (assocGet xs k).or (if x.1 = k then some x.2 else none) := by
  induction xs with
  | nil => simp [assocGet_cons, assocGet]
  | cons p ps ih =>
    rw [List.cons_append, assocGet_cons, assocGet_cons]
    by_cases hp : p.1 = k
    · simp [hp]
    · simp [hp, ih]

theorem assocGet_assocClone {α : Type} (m : List (String × α))
    (h : (m.map Prod.fst).Nodup) (k : String) :
    assocGet (assocClone m) k = assocGet m k := by
  induction m using List.reverseRecOn with
  | nil => rfl
  | append_singleton xs x ih =>
    have hnd : (xs.map Prod.fst).Nodup := by
      rw [List.map_append, List.nodup_append] at h
      exact h.1
    have hnm : x.1 ∉ xs.map Prod.fst := by
      rw [List.map_append, List.nodup_append] at h
      intro hm
      exact h.2.2 hm (by simp)
    have hc : assocClone (xs ++ [x]) = assocSet (assocClone xs) x.1 x.2 := by
      simp [assocClone, List.foldl_append]
    rw [hc, assocGet_assocSet, assocGet_append_single]
    by_cases hk : k = x.1
    · have h0 : assocGet xs k = none := by
        rw [hk]
        exact assocGet_eq_none_of_not_mem xs x.1 hnm
      rw [if_pos hk, h0, if_pos hk.symm]
      rfl
    · rw [if_neg hk, if_neg (fun he => hk he.symm), ih hnd, Option.or_none]

/-- C8: table replacement is copy-on-write. For any snapshot `m` (with the
distinct keys every Go map has): the clone built by `mutateCerts` binds
exactly what `m` binds, installing a certificate for `domain` publishes a
table that maps `domain` to the new record, and every other domain still
maps to the identical record it had in the prior snapshot (which, being a
distinct value, is itself untouched). -/
theorem C8_mutateCerts_copy_on_write (m : certMap) (domain : String) (cert : TLSCert)
    (h : (m.map Prod.fst).Nodup) :
    (∀ k, assocGet (assocClone m) k = assocGet m k) ∧
    assocGet (mutateCerts (installCertMutation domain cert) m) domain = some cert ∧
    (∀ k, k ≠ domain →
      assocGet (mutateCerts (installCertMutation domain cert) m) k = assocGet m k) := by
  refine ⟨fun k => assocGet_assocClone m h k, ?_, ?_⟩
  · rw [mutateCerts, installCertMutation, assocGet_assocSet, if_pos rfl]
  · intro k hk
    rw [mutateCerts, installCertMutation, assocGet_assocSet, if_neg hk]
    exact assocGet_assocClone m h k

/-- A concrete certificate record for witnesses. -/
def certB : TLSCert where
  certificate := [[1, 2]]
  privateKey := [3]
  leaf := { notAfter := 100 }

/-- A second concrete certificate record for witnesses. -/
def certA : TLSCert where
  certificate := [[4]]
  privateKey := [5]
  leaf := { notAfter := 200 }

/-- Witness for C8: installing `"a.example"` into a table holding
`"b.example"` leaves `"b.example"` bound to the same record. -/
theorem C8_mutateCerts_copy_on_write_witness :
    assocGet (mutateCerts (installCertMutation "a.example" certA) [("b.example", certB)])
        "b.example" = assocGet [("b.example", certB)] "b.example" ∧
    assocGet (mutateCerts (installCertMutation "a.example" certA) [("b.example", certB)])
        "a.example" = some certA :=
  ⟨(C8_mutateCerts_copy_on_write [("b.example", certB)] "a.example" certA
      (by decide)).2.2 "b.example" (by decide),
   (C8_mutateCerts_copy_on_write [("b.example", certB)] "a.example" certA
      (by decide)).2.1⟩

/-! ## Decision loop (`Client.domainLoop`) -/

/-- What the loop does for one domain in one trigger. -/
inductive DomainAction where
  | createCert
  | skip
  | renewCert
deriving DecidableEq, Repr

/-- The renewal threshold `30 * 24 * time.Hour`, in nanoseconds. -/
def renewThresholdNs : Int := 30 * 24 * 60 * 60 * 1000000000

/-- The per-domain decision of `Client.domainLoop`: no table entry means
acquisition; otherwise `valid := cert.Leaf.NotAfter.Sub(now)` and a value
strictly above the threshold means no action, anything else (including
expired certificates, where `valid` is negative) means renewal. -/
def domainDecision (certs : certMap) (domain : String) (now : Int) : DomainAction :=
  match assocGet certs domain with
  | none => .createCert
  | some cert => if cert.leaf.notAfter - now > renewThresholdNs then .skip else .renewCert

/-- One trigger of `Client.domainLoop`: each domain of the desired set is
processed sequentially with the decision above. -/
def domainLoopIteration (domains : List String) (certs : certMap) (now : Int) :
    List (String × DomainAction) :=
  domains.map (fun d => (d, domainDecision certs d now))

/-- C6: during one decision-loop trigger, for every domain of the desired
set: no table entry means the loop attempts acquisition; a leaf with
`notAfter - now` strictly above 30 days means no action this cycle; a leaf
with `notAfter - now` at most 30 days (including already-expired
certificates) means the loop attempts renewal. -/
theorem C6_renewal_threshold_decision (domains : List String) (certs : certMap)
    (now : Int) (d : String) (hd : d ∈ domains) :
    (assocGet certs d = none →
      (d, DomainAction.createCert) ∈ domainLoopIteration domains certs now) ∧
    (∀ cert, assocGet certs d = some cert →
      (cert.leaf.notAfter - now > renewThresholdNs →
        (d, DomainAction.skip) ∈ domainLoopIteration domains certs now) ∧
      (cert.leaf.notAfter - now ≤ renewThresholdNs →
        (d, DomainAction.renewCert) ∈ domainLoopIteration domains certs now)) := by
  have hmem : (d, domainDecision certs d now) ∈ domainLoopIteration domains certs now :=
    List.mem_map.mpr ⟨d, hd, rfl⟩
  refine ⟨fun h0 => ?_, fun cert hc => ⟨fun hgt => ?_, fun hle => ?_⟩⟩
  · rw [domainDecision, h0] at hmem
    exact hmem
  · have hdec : domainDecision certs d now = .skip := by
      rw [domainDecision, hc]
      show (if cert.leaf.notAfter - now > renewThresholdNs then DomainAction.skip
        else DomainAction.renewCert) = DomainAction.skip
      rw [if_pos hgt]
    rw [hdec] at hmem
    exact hmem
  · have hdec : domainDecision certs d now = .renewCert := by
      rw [domainDecision, hc]
      show (if cert.leaf.notAfter - now > renewThresholdNs then DomainAction.skip
        else DomainAction.renewCert) = DomainAction.renewCert
      rw [if_neg (by omega)]
    rw [hdec] at hmem
    exact hmem

/-- Witness for C6 at concrete inputs: an absent domain is acquired, a
fresh certificate is skipped, an expired certificate is renewed. -/
theorem C6_renewal_threshold_decision_witness :
    ("c.example", DomainAction.createCert) ∈
      domainLoopIteration ["c.example"] [("b.example", certB)] 0 ∧
    ("b.example", DomainAction.skip) ∈
      domainLoopIteration ["b.example"] [("b.example", certB)] (-2592000000000001 + 100) ∧
    ("b.example", DomainAction.renewCert) ∈
      domainLoopIteration ["b.example"] [("b.example", certB)] 100 :=
  ⟨(C6_renewal_threshold_decision ["c.example"] [("b.example", certB)] 0 "c.example"
      (by decide)).1 (by decide),
   ((C6_renewal_threshold_decision ["b.example"] [("b.example", certB)]
      (-2592000000000001 + 100) "b.example" (by decide)).2 certB (by decide)).1 (by decide),
   ((C6_renewal_threshold_decision ["b.example"] [("b.example", certB)] 100 "b.example"
      (by decide)).2 certB (by decide)).2 (by decide)⟩

/-! ## Installing a certificate (`Client.acceptNewCertResource`) -/

/-- Go `tls.Certificate` before `setLeaf` runs (no parsed leaf yet). -/
structure RawCertificate where
  certificate : List (List ℕ)
  privateKey : List ℕ
deriving DecidableEq, Repr

/-- `acme.CertificateResource`: the authority's answer, with the chain and
key bytes plus opaque order metadata (here just the domain). -/
structure CertificateResource where
  domain : String
  certificate : List ℕ
  privateKey : List ℕ
deriving DecidableEq, Repr

/-- Source type `jsonCertResource`: the stored form that keeps the chain
and key bytes once, outside the nested resource's serialized fields. -/
structure jsonCertResource where
  CertResource : CertificateResource
  Certificate : List ℕ
  PrivateKey : List ℕ
deriving DecidableEq, Repr

/-- Source `setLeaf`: parse `cert.Certificate[0]` and attach the leaf; a
parse failure is returned as an error. (`tls.X509KeyPair` never returns an
empty chain on success, so the out-of-bounds case does not arise and is
folded into the failure case here.) -/
def setLeaf (parseCertificate : List ℕ → Option Leaf) (cert : RawCertificate) :
    Option TLSCert :=
  match cert.certificate with
  | [] => none
  | der :: _ =>
    match parseCertificate der with
    | none => none
    | some lf =>
      some { certificate := cert.certificate, privateKey := cert.privateKey, leaf := lf }

/-- The state `acceptNewCertResource` can touch: the live table and the
persisted `data.Certs` inventory. -/
structure EngineState where
  certs : certMap
  dataCerts : List (String × jsonCertResource)
deriving DecidableEq, Repr

/-- Source `Client.acceptNewCertResource`, with the external parsers
`tls.X509KeyPair` and `x509.ParseCertificate` passed as capabilities: a
failure of either step returns before any mutation; success installs the
parsed certificate into the table copy-on-write and records the resource
(with its chain and key bytes copied out) in the persisted state. -/
def acceptNewCertResource (x509KeyPair : List ℕ → List ℕ → Option RawCertificate)
    (parseCertificate : List ℕ → Option Leaf) (domain : String)
    (certResource : CertificateResource) (st : EngineState) : EngineState :=
  match x509KeyPair certResource.certificate certResource.privateKey with
  | none => st
  | some raw =>
    match setLeaf parseCertificate raw with
    | none => st
    | some cert =>
      { certs := mutateCerts (installCertMutation domain cert) st.certs
        dataCerts := assocSet st.dataCerts domain
          { CertResource := certResource
            Certificate := certResource.certificate
            PrivateKey := certResource.privateKey } }

/-- C7: if parsing the authority's chain or key fails (`X509KeyPair` error)
or the leaf cannot be parsed (`setLeaf` error), `acceptNewCertResource`
returns with the live table and the persisted state exactly as before the
call. -/
theorem C7_accept_parse_failure_no_mutation
    (x509KeyPair : List ℕ → List ℕ → Option RawCertificate)
    (parseCertificate : List ℕ → Option Leaf) (domain : String)
    (certResource : CertificateResource) (st : EngineState) :
    (x509KeyPair certResource.certificate certResource.privateKey = none →
      acceptNewCertResource x509KeyPair parseCertificate domain certResource st = st) ∧
    (∀ raw, x509KeyPair certResource.certificate certResource.privateKey = some raw →
      setLeaf parseCertificate raw = none →
      acceptNewCertResource x509KeyPair parseCertificate domain certResource st = st) := by
  constructor
  · intro h
    rw [acceptNewCertResource, h]
  · intro raw h1 h2
    rw [acceptNewCertResource, h1]
    show (match setLeaf parseCertificate raw with
      | none => st
      | some cert =>
        { certs := mutateCerts (installCertMutation domain cert) st.certs
          dataCerts := assocSet st.dataCerts domain
            { CertResource := certResource
              Certificate := certResource.certificate
              PrivateKey := certResource.privateKey } }) = st
    rw [h2]

/-- A concrete certificate resource for witnesses. -/
def crA : CertificateResource where
  domain := "a.example"
  certificate := [10, 11]
  privateKey := [12]

/-- A concrete engine state for witnesses. -/
def stB : EngineState where
  certs := [("b.example", certB)]
  dataCerts := []

/-- Witness for C7 at concrete inputs: an always-failing key-pair parser
and a key-pair parser that succeeds but whose leaf fails to parse both
leave the state unchanged. -/
theorem C7_accept_parse_failure_no_mutation_witness :
    acceptNewCertResource (fun _ _ => none) (fun _ => some { notAfter := 0 })
      "a.example" crA stB = stB ∧
    acceptNewCertResource (fun c kbytes => some { certificate := [c], privateKey := kbytes })
      (fun _ => none) "a.example" crA stB = stB :=
  ⟨(C7_accept_parse_failure_no_mutation (fun _ _ => none)
      (fun _ => some { notAfter := 0 }) "a.example" crA stB).1 rfl,
   (C7_accept_parse_failure_no_mutation
      (fun c kbytes => some { certificate := [c], privateKey := kbytes })
      (fun _ => none) "a.example" crA stB).2
      { certificate := [crA.certificate], privateKey := crA.privateKey } rfl rfl⟩

/-! ## Renewal (`Client.renewCert`) -/

/-- How far `Client.renewCert` gets before it would contact the authority:
either it panics on the consistency check, or it reaches the authority
call with the re-merged certificate resource. -/
inductive RenewStep where
  | consistencyFailure
  | callAuthority (resource : CertificateResource)
deriving DecidableEq, Repr

/-- Source `Client.renewCert` up to the authority call: look the domain up
in `data.Certs`; a missing entry hits `panic("consistency error")`;
otherwise the chain and key bytes (kept once, on the outer record) are
copied back into the nested resource before `RenewCertificate` is called. -/
def renewCert (dataCerts : List (String × jsonCertResource)) (domain : String) :
    RenewStep :=
  match assocGet dataCerts domain with
  | none => .consistencyFailure
  | some jcr =>
    .callAuthority { jcr.CertResource with
      certificate := jcr.Certificate, privateKey := jcr.PrivateKey }

/-- C9: renewing a domain with no stored certificate resource fails loudly
and immediately (the consistency panic) without reaching the authority;
and when the domain has a stored resource, that failure branch is
unreachable — the step is the authority call with the re-merged bytes. -/
theorem C9_renew_missing_resource_fails_loudly
    (dataCerts : List (String × jsonCertResource)) (domain : String) :
    (assocGet dataCerts domain = none →
      renewCert dataCerts domain = .consistencyFailure) ∧
    (∀ jcr, assocGet dataCerts domain = some jcr →
      renewCert dataCerts domain = .callAuthority { jcr.CertResource with
        certificate := jcr.Certificate, privateKey := jcr.PrivateKey } ∧
      renewCert dataCerts domain ≠ .consistencyFailure) := by
  constructor
  · intro h
    rw [renewCert, h]
  · intro jcr h
    have hr : renewCert dataCerts domain = .callAuthority { jcr.CertResource with
        certificate := jcr.Certificate, privateKey := jcr.PrivateKey } := by
      rw [renewCert, h]
    refine ⟨hr, ?_⟩
    rw [hr]
    simp

/-- A concrete stored certificate resource for witnesses. -/
def jcrA : jsonCertResource where
  CertResource := crA
  Certificate := [20]
  PrivateKey := [21]

/-- Witness for C9 at concrete inputs: the empty inventory panics, a
present entry proceeds to the authority call. -/
theorem C9_renew_missing_resource_fails_loudly_witness :
    renewCert [] "a.example" = .consistencyFailure ∧
    renewCert [("a.example", jcrA)] "a.example" ≠ .consistencyFailure :=
  ⟨(C9_renew_missing_resource_fails_loudly [] "a.example").1 rfl,
   ((C9_renew_missing_resource_fails_loudly [("a.example", jcrA)] "a.example").2
      jcrA (by decide)).2⟩

/-! ## Persisted state construction (`data`, `initData`, `DecodeFromJSON`) -/

/-- Source type `data`: the persisted account and certificate state.
`PrivateKey` is the nil-able marshalled key; `privKeyParsed` models the
unexported `privateKey` field; `Certs` is `none` exactly when the Go map
is nil. -/
structure data where
  Email : String
  Reg : Option (List ℕ)
  PrivateKey : Option (List ℕ)
  privKeyParsed : Option (List ℕ)
  Certs : Option (List (String × jsonCertResource))
deriving DecidableEq, Repr

/-- Source `Client.initData` (on the success path of `rsa.GenerateKey`,
whose fresh key is passed in): allocates the `Certs` map. -/
def initData (email : String) (generatedKey : List ℕ)
    (marshalPKCS1 : List ℕ → List ℕ) : data where
  Email := email
  Reg := none
  PrivateKey := some (marshalPKCS1 generatedKey)
  privKeyParsed := some generatedKey
  Certs := some []

inductive DecodeError where
  | jsonError
  | keyParseError
deriving DecidableEq, Repr

/-- Source `data.DecodeFromJSON`: a JSON decode error is returned; a
non-nil `PrivateKey` must parse as PKCS1 (else error); a nil `Certs` map
is replaced by a fresh empty one. -/
def DecodeFromJSON (parsePKCS1 : List ℕ → Option (List ℕ))
    (decoded : Except Unit data) : Except DecodeError data :=
  match decoded with
  | .error _ => .error .jsonError
  | .ok d =>
    match d.PrivateKey with
    | none => .ok { d with Certs := some (d.Certs.getD []) }
    | some pk =>
      match parsePKCS1 pk with
      | none => .error .keyParseError
      | some k => .ok { d with privKeyParsed := some k, Certs := some (d.Certs.getD []) }

/-- Outcome of a Go map assignment: `nilMapPanic` models the runtime panic
of writing to a nil map. -/
inductive MapWrite (α : Type) where
  | ok (v : α)
  | nilMapPanic
deriving DecidableEq

/-- The map assignment `d.Certs[domain] = jcr` performed under `mutateData`
by `acceptNewCertResource`, made strict about nil maps. -/
def dataSetCert (d : data) (domain : String) (jcr : jsonCertResource) : MapWrite data :=
  match d.Certs with
  | none => .nilMapPanic
  | some m => .ok { d with Certs := some (assocSet m domain jcr) }

/-- C10: the persisted-state `Certs` map is non-nil after every way of
constructing the state — `initData` allocates it and `DecodeFromJSON`
allocates an empty map when the decoded document lacks one — so the map
assignment done by `acceptNewCertResource` never hits the nil-map panic. -/
theorem C10_certs_map_nonnil :
    (∀ (email : String) (generatedKey : List ℕ) (marshalPKCS1 : List ℕ → List ℕ)
      (domain : String) (jcr : jsonCertResource),
      dataSetCert (initData email generatedKey marshalPKCS1) domain jcr ≠ .nilMapPanic) ∧
    (∀ (parsePKCS1 : List ℕ → Option (List ℕ)) (decoded : Except Unit data) (d : data),
      DecodeFromJSON parsePKCS1 decoded = .ok d →
      ∀ (domain : String) (jcr : jsonCertResource),
      dataSetCert d domain jcr ≠ .nilMapPanic) := by
  constructor
  · intro email generatedKey marshalPKCS1 domain jcr
    simp [initData, dataSetCert]
  · intro parsePKCS1 decoded d hdec domain jcr
    have hsome : ∃ m, d.Certs = some m := by
      unfold DecodeFromJSON at hdec
      split at hdec
      · exact absurd hdec (by simp)
      · split at hdec
        · rw [Except.ok.injEq] at hdec
          exact ⟨_, (congrArg data.Certs hdec).symm⟩
        · split at hdec
          · exact absurd hdec (by simp)
          · rw [Except.ok.injEq] at hdec
            exact ⟨_, (congrArg data.Certs hdec).symm⟩
    obtain ⟨m, hm⟩ := hsome
    rw [dataSetCert, hm]
    simp

/-- A concrete decoded document whose `Certs` map is nil. -/
def docNilCerts : data where
  Email := ""
  Reg := none
  PrivateKey := none
  privKeyParsed := none
  Certs := none

/-- Witness for C10 at concrete inputs: the state built by `initData` and
the state decoded from a document with a nil `Certs` map both accept the
assignment. -/
theorem C10_certs_map_nonnil_witness :
    dataSetCert (initData "e" [1] (fun k => k)) "a.example" jcrA ≠ .nilMapPanic ∧
    dataSetCert { docNilCerts with Certs := some [] } "a.example" jcrA ≠ .nilMapPanic :=
  ⟨C10_certs_map_nonnil.1 "e" [1] (fun k => k) "a.example" jcrA,
   C10_certs_map_nonnil.2 (fun pk => some pk) (.ok docNilCerts)
      { docNilCerts with Certs := some [] } rfl "a.example" jcrA⟩
